import Mathlib

/-!
# Verification of `cryo`'s four-byte-counts dataset logic

Shallow embedding of `crates/freeze/src/datasets/four_byte_counts.rs`:
the encoded-trace-key parser `parse_signature_size`, the selector hasher
`function_signature_to_selector` (Keccak-256), the row aggregator
`process_storage_reads`, and the two extraction drivers.

Rust strings are modelled at the UTF-8 byte level (`List Nat`, each < 256),
matching Rust's byte-indexed `str` slicing; machine integers are `Nat` with
explicit `% 2^w` where the source casts.
-/

namespace FourByte

/-! ## UTF-8 byte model of Rust strings -/

/-- UTF-8 encoding of a single scalar value, as in Rust's `str` representation. -/
def utf8EncodeChar (c : Char) : List Nat :=
  let n := c.toNat
  if n < 0x80 then [n]
  else if n < 0x800 then
    [0xC0 + n / 64, 0x80 + n % 64]
  else if n < 0x10000 then
    [0xE0 + n / 4096, 0x80 + n / 64 % 64, 0x80 + n % 64]
  else
    [0xF0 + n / 262144, 0x80 + n / 4096 % 64, 0x80 + n / 64 % 64, 0x80 + n % 64]

/-- The UTF-8 bytes of a string, i.e. what a Rust `&str` holds. -/
def utf8Bytes (s : String) : List Nat :=
  s.data.flatMap utf8EncodeChar

/-- A UTF-8 continuation byte (`0b10xxxxxx`): not a character boundary. -/
def isContinuation (b : Nat) : Bool :=
  0x80 ≤ b && b < 0xC0

/-! ## `u8::from_str_radix(_, 16)` on a two-byte slice -/

/-- Value of an ASCII hex digit byte, if it is one. -/
def hexDigitVal (b : Nat) : Option Nat :=
  if 0x30 ≤ b && b ≤ 0x39 then some (b - 0x30)        -- '0'..'9'
  else if 0x61 ≤ b && b ≤ 0x66 then some (b - 0x61 + 10) -- 'a'..'f'
  else if 0x41 ≤ b && b ≤ 0x46 then some (b - 0x41 + 10) -- 'A'..'F'
  else none

/-- Rust's `u8::from_str_radix(s, 16)` on a two-byte string slice: an optional
leading `+` sign is accepted (unsigned types reject `-`), then hex digits. -/
def pairVal (a b : Nat) : Option Nat :=
  if a = 0x2B then hexDigitVal b  -- '+' sign followed by a single digit
  else
    match hexDigitVal a, hexDigitVal b with
    | some x, some y => some (16 * x + y)
    | _, _ => none

/-! ## `parse_signature_size` -/

/-- Outcome of a call to `parse_signature_size`: normal return `Ok`, normal
return `Err(CollectError::CollectError msg)`, or a Rust panic (out-of-bounds /
non-boundary `str` slice). -/
inductive ParseOutcome where
  | ok (bytes : List Nat) (size : Nat)
  | error (msg : String)
  | crash
  deriving DecidableEq, Repr

/-- Outcome of the hex-decoding loop
`(0..len).step_by(2).map(|i| u8::from_str_radix(&hex[i..i+2], 16)).collect()`. -/
inductive HexOutcome where
  | ok (bytes : List Nat)
  | invalid
  | crash
  deriving DecidableEq, Repr

/-- The hex-decoding loop over the byte slice. At each step the source slices
`&hex_part[i..i+2]` *before* parsing: with one byte left the slice is out of
bounds (panic), and a slice end falling inside a multi-byte character is a
non-boundary panic; `collect::<Result<_,_>>` stops at the first `Err`, so bytes
after a failed pair are never sliced. -/
def decodeHex : List Nat → HexOutcome
  | [] => .ok []
  | [_] => .crash
  | a :: b :: rest =>
    if rest ≠ [] && isContinuation (rest.headD 0) then .crash
    else
      match pairVal a b with
      | none => .invalid
      | some v =>
        match decodeHex rest with
        | .ok bs => .ok (v :: bs)
        | e => e

/-- `str::trim_start_matches("0x")`: repeatedly strips a leading `0x`. -/
def trim0x : List Nat → List Nat
  | 0x30 :: 0x78 :: rest => trim0x rest
  | l => l

/-- `splitn(2, '-')`: `none` when the string holds no `-` (one part), otherwise
the bytes before the first `-` and everything after it. -/
def splitDash : List Nat → Option (List Nat × List Nat)
  | [] => none
  | b :: rest =>
    if b = 0x2D then some ([], rest)
    else
      match splitDash rest with
      | none => none
      | some (p, q) => some (b :: p, q)

/-- Decimal digit value of an ASCII byte, if it is one. -/
def decDigitVal (b : Nat) : Option Nat :=
  if 0x30 ≤ b && b ≤ 0x39 then some (b - 0x30) else none

/-- Accumulating decimal parse of a nonempty digit string. -/
def decDigits : List Nat → Nat → Option Nat
  | [], acc => some acc
  | b :: rest, acc =>
    match decDigitVal b with
    | none => none
    | some d => decDigits rest (acc * 10 + d)

/-- Rust's `str::parse::<u64>()`: optional leading `+`, then one or more
decimal digits, rejecting the empty string and values past `u64::MAX`. -/
def parseU64 (l : List Nat) : Option Nat :=
  let digits := match l with
    | 0x2B :: rest => rest  -- leading '+'
    | _ => l
  match digits with
  | [] => none
  | _ =>
    match decDigits digits 0 with
    | none => none
    | some v => if v < 2 ^ 64 then some v else none

/-! ## Keccak-256 (`ethers_core::utils::keccak256`) -/

/-- ρ rotation offsets, lanes ordered `x + 5*y` (one row of five per `y`). -/
def rhoOffsets : List Nat :=
  List.flatten
    [[0, 1, 62, 28, 27],
     [36, 44, 6, 55, 20],
     [3, 10, 43, 25, 39],
     [41, 45, 15, 21, 8],
     [18, 2, 61, 56, 14]]

/-- π lane permutation `(x,y) ↦ (y, 2x+3y mod 5)` as `oldIdx ↦ newIdx`. -/
def piTarget (i : Nat) : Nat :=
  let x := i % 5
  let y := i / 5
  y + 5 * ((2 * x + 3 * y) % 5)

/-- Keccak-f[1600] round constants, one per round. -/
def roundConstants : List Nat :=
  List.flatten
    [[0x0000000000000001, 0x0000000000008082, 0x800000000000808a],
     [0x8000000080008000, 0x000000000000808b, 0x0000000080000001],
     [0x8000000080008081, 0x8000000000008009, 0x000000000000008a],
     [0x0000000000000088, 0x0000000080008009, 0x000000008000000a],
     [0x000000008000808b, 0x800000000000008b, 0x8000000000008089],
     [0x8000000000008003, 0x8000000000008002, 0x8000000000000080],
     [0x000000000000800a, 0x800000008000000a, 0x8000000080008081],
     [0x8000000000008080, 0x0000000080000001, 0x8000000080008008]]

/-- 64-bit left rotation on `Nat` lanes. -/
def rotl64 (x n : Nat) : Nat :=
  ((x <<< n) ||| (x >>> (64 - n))) % 2 ^ 64

/-- One Keccak-f[1600] round (θ, ρ, π, χ, ι) on a 25-lane state. -/
def keccakRound (s : List Nat) (rc : Nat) : List Nat :=
  let C := (List.range 5).map fun x =>
    (s.getD x 0) ^^^ (s.getD (x + 5) 0) ^^^ (s.getD (x + 10) 0) ^^^
    (s.getD (x + 15) 0) ^^^ (s.getD (x + 20) 0)
  let D := (List.range 5).map fun x =>
    (C.getD ((x + 4) % 5) 0) ^^^ rotl64 (C.getD ((x + 1) % 5) 0) 1
  let s1 := (List.range 25).map fun i => (s.getD i 0) ^^^ (D.getD (i % 5) 0)
  let B := (List.range 25).foldl
    (fun acc i => acc.set (piTarget i) (rotl64 (s1.getD i 0) (rhoOffsets.getD i 0)))
    (List.replicate 25 0)
  let s2 := (List.range 25).map fun i =>
    let x := i % 5
    let y := i / 5
    (B.getD i 0) ^^^
      (((B.getD ((x + 1) % 5 + 5 * y) 0) ^^^ (2 ^ 64 - 1)) &&&
       (B.getD ((x + 2) % 5 + 5 * y) 0))
  s2.set 0 ((s2.getD 0 0) ^^^ rc)

/-- The full 24-round Keccak-f[1600] permutation. -/
def keccakF (s : List Nat) : List Nat :=
  roundConstants.foldl keccakRound s

/-- Little-endian lane value of (up to) 8 bytes. -/
def laneOfBytes (bs : List Nat) : Nat :=
  bs.foldr (fun b acc => b + 256 * acc) 0

/-- XOR a full 136-byte rate block into the first 17 lanes of the state. -/
def xorBlock (s block : List Nat) : List Nat :=
  (List.range 25).map fun i =>
    if i < 17 then (s.getD i 0) ^^^ laneOfBytes ((block.drop (8 * i)).take 8)
    else s.getD i 0

/-- Split a byte list into 136-byte rate blocks. The fuel argument (the list's
length at the first call) keeps the recursion structural. -/
def toBlocks : Nat → List Nat → List (List Nat)
  | 0, _ => []
  | _, [] => []
  | fuel + 1, l => l.take 136 :: toBlocks fuel (l.drop 136)

/-- Absorb the padded message, one 136-byte block at a time. -/
def absorb (s : List Nat) (padded : List Nat) : List Nat :=
  (toBlocks padded.length padded).foldl (fun st b => keccakF (xorBlock st b)) s

/-- Little-endian bytes of a lane. -/
def laneBytes (x : Nat) : List Nat :=
  (List.range 8).map fun i => (x >>> (8 * i)) % 256

/-- Keccak (pad10*1 with the original `0x01` domain byte, as Ethereum uses):
pad to a multiple of the 136-byte rate. -/
def keccakPad (msg : List Nat) : List Nat :=
  let padTotal := 136 - msg.length % 136
  if padTotal = 1 then msg ++ [0x81]
  else msg ++ 0x01 :: (List.replicate (padTotal - 2) 0 ++ [0x80])

/-- `ethers_core::utils::keccak256`: the 32-byte Keccak-256 digest. -/
def keccak256 (msg : List Nat) : List Nat :=
  let s := absorb (List.replicate 25 0) (keccakPad msg)
  (((s.take 4).map laneBytes).flatten).take 32

/-- `function_signature_to_selector`: first 4 bytes of the Keccak-256 hash of
the signature's UTF-8 bytes. -/
def function_signature_to_selector (signature : String) : List Nat :=
  (keccak256 (utf8Bytes signature)).take 4

/-- `parse_signature_size` on the UTF-8 bytes of the input. Mirrors the source:
full-signature branch on a `(` byte; otherwise split on the first `-`
(`MalformedPair` when absent), strip `0x` prefixes, run the hex loop
(`InvalidHex` message, or a panic), then parse the size (`InvalidSize`). -/
def parseBytes (origin : String) (bytes : List Nat) : ParseOutcome :=
  if bytes.contains 0x28 then
    .ok (function_signature_to_selector origin) 0
  else
    match splitDash bytes with
    | none => .error "could not parse 4byte-size pair"
    | some (hexRaw, sizeRaw) =>
      match decodeHex (trim0x hexRaw) with
      | .crash => .crash
      | .invalid => .error "could not parse signature bytes"
      | .ok bs =>
        match parseU64 sizeRaw with
        | none => .error "could not parse call data size"
        | some n => .ok bs n

/-- `parse_signature_size` as a function of the input string. -/
def parse_signature_size (s : String) : ParseOutcome :=
  parseBytes s (utf8Bytes s)

/-! ## The `FourByteCounts` table and schema registry -/

/-- The dataset identities the registry can hold (only the one this file
verifies is relevant). -/
inductive Datatype where
  | fourByteCounts
  deriving DecidableEq, Repr

/-- A table schema: the set of requested column names, exposing the membership
test `has_column`. -/
structure Schema where
  cols : List String
  deriving DecidableEq, Repr

/-- `Table::has_column`. -/
def Schema.has_column (s : Schema) (name : String) : Bool :=
  s.cols.contains name

/-- The schema registry `Schemas = HashMap<Datatype, Table>`, exposed through
its lookup. -/
def Schemas : Type := Datatype → Option Schema

/-- `HashMap::get`. -/
def Schemas.get (s : Schemas) (d : Datatype) : Option Schema := s d

/-- The `FourByteCounts` column accumulator struct. `n_rows : u64` is kept as
`Nat`: each increment corresponds to a pushed row, so wrap-around at `2^64` is
unreachable. -/
structure FourByteCounts where
  n_rows : Nat
  block_number : List (Option Nat)
  transaction_index : List (Option Nat)
  transaction_hash : List (Option (List Nat))
  signature : List (List Nat)
  size : List Nat
  count : List Nat
  chain_id : List Nat
  deriving DecidableEq, Repr

/-- `FourByteCounts::default()`: the empty table. -/
def FourByteCounts.empty : FourByteCounts :=
  ⟨0, [], [], [], [], [], [], []⟩

/-- `type BlockTxsTraces = (Option<u32>, Vec<Option<Vec<u8>>>,
Vec<BTreeMap<String, u64>>)`. Each `BTreeMap` is represented by its
association list in iteration order (ascending keys). -/
def BlockTxsTraces : Type :=
  Option Nat × List (Option (List Nat)) × List (List (String × Nat))

/-- Modelled from the spec: the `store!` macro of the `cryo_to_df` crate (not
under `src/`) appends `v` to a column's sequence iff the schema requests that
column, else leaves it unchanged. -/
def store (requested : Bool) (l : List α) (v : α) : List α :=
  if requested then l ++ [v] else l

/-- One loop-body iteration of `process_storage_reads` after a successful
parse: `n_rows += 1`, then the six `store!` calls. `index as u32` is the
truncating Rust cast. -/
def appendRow (schema : Schema) (bn : Option Nat) (index : Nat)
    (tx : Option (List Nat)) (sig : List Nat) (sz cnt : Nat)
    (c : FourByteCounts) : FourByteCounts where
  n_rows := c.n_rows + 1
  block_number := store (schema.has_column "block_number") c.block_number bn
  transaction_index :=
    store (schema.has_column "transaction_index") c.transaction_index
      (some (index % 2 ^ 32))
  transaction_hash := store (schema.has_column "transaction_hash") c.transaction_hash tx
  signature := store (schema.has_column "signature") c.signature sig
  size := store (schema.has_column "size") c.size sz
  count := store (schema.has_column "count") c.count cnt
  chain_id := c.chain_id

/-- Outcome of `process_storage_reads`, keeping the accumulator that the
caller's `&mut columns` holds on each path (`Err` does not roll it back). A
panic during parsing unwinds instead of returning. -/
inductive ProcOutcome where
  | ok (cols : FourByteCounts)
  | err (msg : String) (cols : FourByteCounts)
  | crash
  deriving DecidableEq, Repr

/-- The inner loop of `process_storage_reads`: one transaction's counter map,
iterated in `BTreeMap` order; `?` on `parse_signature_size` aborts. -/
def processTrace (schema : Schema) (bn : Option Nat) (index : Nat)
    (tx : Option (List Nat)) :
    List (String × Nat) → FourByteCounts → ProcOutcome
  | [], c => .ok c
  | (key, cnt) :: rest, c =>
    match parse_signature_size key with
    | .crash => .crash
    | .error m => .err m c
    | .ok sig sz => processTrace schema bn index tx rest (appendRow schema bn index tx sig sz cnt c)

/-- The outer loop of `process_storage_reads`:
`traces.iter().zip(txs).enumerate()`. -/
def processTxs (schema : Schema) (bn : Option Nat) :
    List (List (String × Nat) × Option (List Nat)) → Nat → FourByteCounts → ProcOutcome
  | [], _, c => .ok c
  | (trace, tx) :: rest, index, c =>
    match processTrace schema bn index tx trace c with
    | .ok c' => processTxs schema bn rest (index + 1) c'
    | e => e

/-- `process_storage_reads(response, columns, schemas)`. -/
def process_storage_reads (response : BlockTxsTraces) (columns : FourByteCounts)
    (schemas : Schemas) : ProcOutcome :=
  match schemas.get .fourByteCounts with
  | none => .err "schema not provided" columns
  | some schema =>
    processTxs schema response.1 (response.2.2.zip response.2.1) 0 columns

/-! ## Extraction drivers

Each driver is embedded as a function of the request parameters, the schema
registry and the external fetch capability; the second component of the result
counts how many fetch calls were issued (0 or 1), making "no fetch before the
schema check" a provable statement. -/

/-- The request parameters consumed by the drivers: `Params::block_number()`
and `Params::transaction_hash()` are fallible accessors. -/
structure Params where
  block_number : Except String Nat
  transaction_hash : Except String (List Nat)

/-- `<FourByteCounts as CollectByBlock>::extract`: schema lookup, then
`include_txs = has_column("transaction_hash")`, then one fetch of the block's
4byte traces (`block_number()? as u32`). -/
def extractByBlock (request : Params) (schemas : Schemas)
    (fetch : Nat → Bool → Except String BlockTxsTraces) :
    Except String BlockTxsTraces × Nat :=
  match schemas.get .fourByteCounts with
  | none => (.error "schema not provided", 0)
  | some schema =>
    let include_txs := schema.has_column "transaction_hash"
    match request.block_number with
    | .error e => (.error e, 0)
    | .ok bn => (fetch (bn % 2 ^ 32) include_txs, 1)

/-- `<FourByteCounts as CollectByTransaction>::extract`: schema lookup, then
`include_block_number = has_column("block_number")`, then one fetch of the
transaction's 4byte traces. -/
def extractByTransaction (request : Params) (schemas : Schemas)
    (fetch : List Nat → Bool → Except String BlockTxsTraces) :
    Except String BlockTxsTraces × Nat :=
  match schemas.get .fourByteCounts with
  | none => (.error "schema not provided", 0)
  | some schema =>
    let include_block_number := schema.has_column "block_number"
    match request.transaction_hash with
    | .error e => (.error e, 0)
    | .ok tx => (fetch tx include_block_number, 1)

/-! ## Flattened-row view of the aggregation loops

`process_storage_reads` walks `traces.zip(txs).enumerate()` and, inside, each
counter map. Flattening the two loops into one list of
`(index, tx, key, count)` rows gives an equivalent presentation that the
invariant proofs use. -/

/-- The rows the nested loops visit, in iteration order, starting the
enumeration at `index`. -/
def rowsOfTxs : List (List (String × Nat) × Option (List Nat)) → Nat →
    List (Nat × Option (List Nat) × String × Nat)
  | [], _ => []
  | (trace, tx) :: rest, index =>
    trace.map (fun kc => (index, tx, kc.1, kc.2)) ++ rowsOfTxs rest (index + 1)

/-- One row's effect on the accumulator, ignoring failed rows. -/
def applyRow (schema : Schema) (bn : Option Nat) (c : FourByteCounts)
    (row : Nat × Option (List Nat) × String × Nat) : FourByteCounts :=
  match parse_signature_size row.2.2.1 with
  | .ok sig sz => appendRow schema bn row.1 row.2.1 sig sz row.2.2.2 c
  | _ => c

/-- The loop body over the flattened row list. -/
def runRows (schema : Schema) (bn : Option Nat) :
    List (Nat × Option (List Nat) × String × Nat) → FourByteCounts → ProcOutcome
  | [], c => .ok c
  | (i, tx, key, cnt) :: rest, c =>
    match parse_signature_size key with
    | .crash => .crash
    | .error m => .err m c
    | .ok sig sz => runRows schema bn rest (appendRow schema bn i tx sig sz cnt c)

/-- A row parses successfully. -/
def rowOk (row : Nat × Option (List Nat) × String × Nat) : Prop :=
  ∃ b n, parse_signature_size row.2.2.1 = .ok b n

/-- The table invariant: each of the six per-row columns has length `n_rows`
when the schema requests it and length 0 otherwise. -/
def lengthsOk (schema : Schema) (c : FourByteCounts) : Prop :=
  c.block_number.length = (if schema.has_column "block_number" then c.n_rows else 0) ∧
  c.transaction_index.length = (if schema.has_column "transaction_index" then c.n_rows else 0) ∧
  c.transaction_hash.length = (if schema.has_column "transaction_hash" then c.n_rows else 0) ∧
  c.signature.length = (if schema.has_column "signature" then c.n_rows else 0) ∧
  c.size.length = (if schema.has_column "size" then c.n_rows else 0) ∧
  c.count.length = (if schema.has_column "count" then c.n_rows else 0)

/-- The `(transaction index, encoded key)` pairs of the emitted rows, in
emission order. -/
def rowKeys (zipped : List (List (String × Nat) × Option (List Nat))) (s : Nat) :
    List (Nat × String) :=
  (rowsOfTxs zipped s).map (fun q => (q.1, q.2.2.1))

/-- Strict lexicographic order on byte sequences: Rust's `Ord for str`, which
is what `BTreeMap<String, _>` iteration order follows. -/
def bytesLt : List Nat → List Nat → Bool
  | _, [] => false
  | [], _ :: _ => true
  | x :: xs, y :: ys =>
    if x < y then true
    else if x = y then bytesLt xs ys
    else false

/-- Strict order on encoded trace keys: lexicographic on their UTF-8 bytes. -/
def keyLt (a b : String) : Prop :=
  bytesLt (utf8Bytes a) (utf8Bytes b) = true

instance (a b : String) : Decidable (keyLt a b) := by
  unfold keyLt
  infer_instance

/-- Strict ordering on emitted rows: earlier transaction, or same transaction
and lexicographically smaller encoded key. -/
def rowBefore (a b : Nat × String) : Prop :=
  a.1 < b.1 ∨ (a.1 = b.1 ∧ keyLt a.2 b.2)

/-! ## Concrete fixtures -/

/-- A schema requesting all seven columns. -/
def allSchema : Schema :=
  ⟨["block_number", "transaction_index", "transaction_hash", "signature",
    "size", "count", "chain_id"]⟩

/-- A registry holding `allSchema` for every dataset. -/
def allSchemas : Schemas := fun _ => some allSchema

/-- A schema that excludes `transaction_hash` (spec §8 example). -/
def noHashSchema : Schema :=
  ⟨["block_number", "transaction_index", "signature", "size", "count"]⟩

/-- A registry holding `noHashSchema` for every dataset. -/
def noHashSchemas : Schemas := fun _ => some noHashSchema

/-- A registry with no schema at all. -/
def emptySchemas : Schemas := fun _ => none

/-- Synthetic response: 2 transactions whose counter maps have 3 and 1 sorted
entries (spec §8 example). -/
def exResponse : BlockTxsTraces :=
  (some 9, [some [0x11], some [0x22]],
   [[("aa-1", 5), ("bb-2", 6), ("cc-3", 7)], [("dd-4", 8)]])

/-- A response whose second encoded key fails to parse (no `-`, no `(`). -/
def exBadResponse : BlockTxsTraces :=
  (some 9, [some [0x11]], [[("aa-1", 5), ("zz", 6)]])

/-- Mismatched response: two counter maps but a single transaction hash. -/
def exMismatch : BlockTxsTraces :=
  (some 9, [some [0x11]], [[("aa-1", 5)], [("bb-2", 6)]])

/-- The table `exResponse` produces under `allSchema`. -/
def exResponseOut : FourByteCounts :=
  ⟨4, [some 9, some 9, some 9, some 9], [some 0, some 0, some 0, some 1],
   [some [0x11], some [0x11], some [0x11], some [0x22]],
   [[0xAA], [0xBB], [0xCC], [0xDD]], [1, 2, 3, 4], [5, 6, 7, 8], []⟩

/-- The table `exResponse` produces under `noHashSchema`: `transaction_hash`
stays empty. -/
def exNoHashOut : FourByteCounts :=
  ⟨4, [some 9, some 9, some 9, some 9], [some 0, some 0, some 0, some 1], [],
   [[0xAA], [0xBB], [0xCC], [0xDD]], [1, 2, 3, 4], [5, 6, 7, 8], []⟩

/-- The single-row table left by the first entry of `exBadResponse` (also the
full output for `exMismatch`). -/
def exOneRowOut : FourByteCounts :=
  ⟨1, [some 9], [some 0], [some [0x11]], [[0xAA]], [1], [5], []⟩

/-- Request parameters whose accessors succeed. -/
def exParams : Params := ⟨.ok 3, .ok [0xAB]⟩

/-- A by-block fetch stub. -/
def exFetch : Nat → Bool → Except String BlockTxsTraces := fun _ _ => .ok exResponse

/-- A by-transaction fetch stub. -/
def exFetchTx : List Nat → Bool → Except String BlockTxsTraces :=
  fun _ _ => .ok exResponse

theorem runRows_append (schema : Schema) (bn : Option Nat)
    (a b : List (Nat × Option (List Nat) × String × Nat)) (c : FourByteCounts) :
    runRows schema bn (a ++ b) c =
      match runRows schema bn a c with
      | .ok c' => runRows schema bn b c'
      | e => e := by
  induction a generalizing c with
  | nil => simp [runRows]
  | cons hd tl ih =>
    obtain ⟨i, tx, key, cnt⟩ := hd
    simp only [List.cons_append, runRows]
    cases parse_signature_size key <;> simp [ih]

theorem processTrace_eq_runRows (schema : Schema) (bn : Option Nat) (index : Nat)
    (tx : Option (List Nat)) (trace : List (String × Nat)) (c : FourByteCounts) :
    processTrace schema bn index tx trace c =
      runRows schema bn (trace.map (fun kc => (index, tx, kc.1, kc.2))) c := by
  induction trace generalizing c with
  | nil => rfl
  | cons hd tl ih =>
    obtain ⟨key, cnt⟩ := hd
    simp only [processTrace, List.map_cons, runRows]
    cases parse_signature_size key <;> simp [ih]

theorem processTxs_eq_runRows (schema : Schema) (bn : Option Nat)
    (zipped : List (List (String × Nat) × Option (List Nat))) (index : Nat)
    (c : FourByteCounts) :
    processTxs schema bn zipped index c =
      runRows schema bn (rowsOfTxs zipped index) c := by
  induction zipped generalizing index c with
  | nil => rfl
  | cons hd tl ih =>
    obtain ⟨trace, tx⟩ := hd
    simp only [processTxs, rowsOfTxs, runRows_append, processTrace_eq_runRows]
    cases runRows schema bn (trace.map fun kc => (index, tx, kc.1, kc.2)) c <;>
      simp [ih]

/-- `process_storage_reads` is the flattened loop, once the schema is found. -/
theorem process_eq_runRows (response : BlockTxsTraces) (columns : FourByteCounts)
    (schemas : Schemas) (schema : Schema)
    (h : schemas.get .fourByteCounts = some schema) :
    process_storage_reads response columns schemas =
      runRows schema response.1 (rowsOfTxs (response.2.2.zip response.2.1) 0) columns := by
  simp [process_storage_reads, h, processTxs_eq_runRows]

theorem runRows_ok_of_all (schema : Schema) (bn : Option Nat)
    (rows : List (Nat × Option (List Nat) × String × Nat)) (c : FourByteCounts)
    (h : ∀ r ∈ rows, rowOk r) :
    runRows schema bn rows c = .ok (rows.foldl (applyRow schema bn) c) := by
  induction rows generalizing c with
  | nil => rfl
  | cons hd tl ih =>
    obtain ⟨i, tx, key, cnt⟩ := hd
    obtain ⟨b, n, hb⟩ := h _ (List.mem_cons_self _ _)
    simp only [runRows, List.foldl_cons, applyRow] at hb ⊢
    rw [hb]
    exact ih _ fun r hr => h r (List.mem_cons_of_mem _ hr)

theorem runRows_ok_elim (schema : Schema) (bn : Option Nat)
    (rows : List (Nat × Option (List Nat) × String × Nat)) (c c' : FourByteCounts)
    (h : runRows schema bn rows c = .ok c') :
    (∀ r ∈ rows, rowOk r) ∧ c' = rows.foldl (applyRow schema bn) c := by
  induction rows generalizing c with
  | nil =>
    simp only [runRows] at h
    cases h
    exact ⟨by simp, rfl⟩
  | cons hd tl ih =>
    obtain ⟨i, tx, key, cnt⟩ := hd
    simp only [runRows] at h
    cases hp : parse_signature_size key with
    | crash => rw [hp] at h; cases h
    | error m => rw [hp] at h; cases h
    | ok b n =>
      rw [hp] at h
      obtain ⟨htl, hc⟩ := ih _ h
      refine ⟨?_, ?_⟩
      · intro r hr
        rcases List.mem_cons.mp hr with rfl | hr
        · exact ⟨b, n, hp⟩
        · exact htl r hr
      · simpa [applyRow, hp] using hc

theorem runRows_err_elim (schema : Schema) (bn : Option Nat)
    (rows : List (Nat × Option (List Nat) × String × Nat)) (c c' : FourByteCounts)
    (m : String) (h : runRows schema bn rows c = .err m c') :
    ∃ pre row post, rows = pre ++ row :: post ∧ (∀ q ∈ pre, rowOk q) ∧
      parse_signature_size row.2.2.1 = .error m ∧
      c' = pre.foldl (applyRow schema bn) c := by
  induction rows generalizing c with
  | nil => simp [runRows] at h
  | cons hd tl ih =>
    obtain ⟨i, tx, key, cnt⟩ := hd
    simp only [runRows] at h
    cases hp : parse_signature_size key with
    | crash => rw [hp] at h; cases h
    | error m' =>
      rw [hp] at h
      cases h
      exact ⟨[], (i, tx, key, cnt), tl, rfl, by simp, hp, rfl⟩
    | ok b n =>
      rw [hp] at h
      obtain ⟨pre, row, post, hsplit, hpre, hrow, hc⟩ := ih _ h
      refine ⟨(i, tx, key, cnt) :: pre, row, post, by simp [hsplit], ?_, hrow, ?_⟩
      · intro q hq
        rcases List.mem_cons.mp hq with rfl | hq
        · exact ⟨b, n, hp⟩
        · exact hpre q hq
      · simpa [applyRow, hp] using hc

theorem runRows_err_of (schema : Schema) (bn : Option Nat)
    (pre post : List (Nat × Option (List Nat) × String × Nat))
    (row : Nat × Option (List Nat) × String × Nat) (c : FourByteCounts) (m : String)
    (hpre : ∀ q ∈ pre, rowOk q) (hrow : parse_signature_size row.2.2.1 = .error m) :
    runRows schema bn (pre ++ row :: post) c =
      .err m (pre.foldl (applyRow schema bn) c) := by
  rw [runRows_append, runRows_ok_of_all schema bn pre c hpre]
  obtain ⟨i, tx, key, cnt⟩ := row
  simp only [runRows]
  rw [hrow]

/-! ## Column-length invariant -/

theorem lengthsOk_empty (schema : Schema) : lengthsOk schema FourByteCounts.empty := by
  simp only [lengthsOk, FourByteCounts.empty, List.length_nil]
  refine ⟨?_, ?_, ?_, ?_, ?_, ?_⟩ <;> split <;> rfl

theorem store_length (b : Bool) (l : List α) (v : α) :
    (store b l v).length = l.length + (if b then 1 else 0) := by
  simp only [store]
  split <;> simp

theorem appendRow_lengthsOk (schema : Schema) (bn : Option Nat) (i : Nat)
    (tx : Option (List Nat)) (sig : List Nat) (sz cnt : Nat) (c : FourByteCounts)
    (h : lengthsOk schema c) :
    lengthsOk schema (appendRow schema bn i tx sig sz cnt c) := by
  obtain ⟨h1, h2, h3, h4, h5, h6⟩ := h
  refine ⟨?_, ?_, ?_, ?_, ?_, ?_⟩ <;>
    simp only [lengthsOk, appendRow, store_length, h1, h2, h3, h4, h5, h6] <;>
    split <;> simp

theorem applyRow_lengthsOk (schema : Schema) (bn : Option Nat) (c : FourByteCounts)
    (row : Nat × Option (List Nat) × String × Nat) (h : lengthsOk schema c) :
    lengthsOk schema (applyRow schema bn c row) := by
  simp only [applyRow]
  cases parse_signature_size row.2.2.1 with
  | ok sig sz => exact appendRow_lengthsOk _ _ _ _ _ _ _ _ h
  | error m => exact h
  | crash => exact h

theorem foldl_applyRow_lengthsOk (schema : Schema) (bn : Option Nat)
    (rows : List (Nat × Option (List Nat) × String × Nat)) (c : FourByteCounts)
    (h : lengthsOk schema c) :
    lengthsOk schema (rows.foldl (applyRow schema bn) c) := by
  induction rows generalizing c with
  | nil => exact h
  | cons hd tl ih => exact ih _ (applyRow_lengthsOk _ _ _ _ h)

theorem foldl_applyRow_transaction_index (schema : Schema) (bn : Option Nat)
    (rows : List (Nat × Option (List Nat) × String × Nat)) (c : FourByteCounts)
    (hreq : schema.has_column "transaction_index" = true)
    (h : ∀ r ∈ rows, rowOk r) :
    (rows.foldl (applyRow schema bn) c).transaction_index =
      c.transaction_index ++ rows.map (fun r => some (r.1 % 2 ^ 32)) := by
  induction rows generalizing c with
  | nil => simp
  | cons hd tl ih =>
    obtain ⟨i, tx, key, cnt⟩ := hd
    obtain ⟨b, n, hb⟩ := h _ (List.mem_cons_self _ _)
    simp only [applyRow] at hb
    simp only [List.foldl_cons, List.map_cons, applyRow]
    rw [hb, ih _ fun r hr => h r (List.mem_cons_of_mem _ hr)]
    simp [appendRow, store, hreq]

theorem foldl_applyRow_n_rows (schema : Schema) (bn : Option Nat)
    (rows : List (Nat × Option (List Nat) × String × Nat)) (c : FourByteCounts)
    (h : ∀ r ∈ rows, rowOk r) :
    (rows.foldl (applyRow schema bn) c).n_rows = c.n_rows + rows.length := by
  induction rows generalizing c with
  | nil => simp
  | cons hd tl ih =>
    obtain ⟨i, tx, key, cnt⟩ := hd
    obtain ⟨b, n, hb⟩ := h _ (List.mem_cons_self _ _)
    have := ih (applyRow schema bn c (i, tx, key, cnt))
      fun r hr => h r (List.mem_cons_of_mem _ hr)
    simp only [List.foldl_cons] at *
    rw [this]
    simp only [applyRow] at hb ⊢
    rw [hb]
    simp only [appendRow, List.length_cons]
    omega

/-! ## Row ordering -/

theorem rowsOfTxs_map_txIdx (zipped : List (List (String × Nat) × Option (List Nat)))
    (s : Nat) :
    (rowsOfTxs zipped s).map (fun r => some (r.1 % 2 ^ 32)) =
      (List.enumFrom s zipped).flatMap
        (fun p => List.replicate p.2.1.length (some (p.1 % 2 ^ 32))) := by
  induction zipped generalizing s with
  | nil => rfl
  | cons hd tl ih =>
    obtain ⟨trace, tx⟩ := hd
    simp only [rowsOfTxs, List.enumFrom, List.map_append, List.map_map,
      List.flatMap_cons, ih]
    congr 1
    rw [← List.map_const' trace (some (s % 2 ^ 32))]
    rfl

theorem rowsOfTxs_index_le (zipped : List (List (String × Nat) × Option (List Nat)))
    (s : Nat) : ∀ q ∈ rowsOfTxs zipped s, s ≤ q.1 := by
  induction zipped generalizing s with
  | nil => simp [rowsOfTxs]
  | cons hd tl ih =>
    obtain ⟨trace, tx⟩ := hd
    intro q hq
    rcases List.mem_append.mp hq with hq | hq
    · obtain ⟨kc, _, rfl⟩ := List.mem_map.mp hq
      exact Nat.le_refl s
    · exact Nat.le_of_succ_le (ih (s + 1) q hq)

theorem rowKeys_pairwise (zipped : List (List (String × Nat) × Option (List Nat)))
    (s : Nat)
    (h : ∀ p ∈ zipped, List.Pairwise (fun a b : String × Nat => keyLt a.1 b.1) p.1) :
    List.Pairwise rowBefore (rowKeys zipped s) := by
  induction zipped generalizing s with
  | nil => simp [rowKeys, rowsOfTxs]
  | cons hd tl ih =>
    obtain ⟨trace, tx⟩ := hd
    simp only [rowKeys, rowsOfTxs, List.map_append, List.map_map]
    rw [List.pairwise_append]
    refine ⟨?_, ?_, ?_⟩
    · exact (h _ (List.mem_cons_self _ _)).map _
        (fun a b hab => Or.inr ⟨rfl, hab⟩)
    · exact ih (s + 1) fun p hp => h p (List.mem_cons_of_mem _ hp)
    · intro a ha b hb
      obtain ⟨kc, _, rfl⟩ := List.mem_map.mp ha
      obtain ⟨q, hq, rfl⟩ := List.mem_map.mp hb
      exact Or.inl (Nat.lt_of_succ_le (rowsOfTxs_index_le tl (s + 1) q hq))

/-! ## Zip truncation -/

theorem zip_eq_zip_take (l₁ : List α) (l₂ : List β) :
    l₁.zip l₂ =
      (l₁.take (min l₁.length l₂.length)).zip (l₂.take (min l₁.length l₂.length)) := by
  induction l₁ generalizing l₂ with
  | nil => simp
  | cons a t ih =>
    cases l₂ with
    | nil => simp
    | cons b t₂ =>
      simp only [List.length_cons, Nat.succ_min_succ, List.take_succ_cons,
        List.zip_cons_cons]
      rw [← ih t₂]

/-! ## `splitDash` and ASCII membership -/

theorem splitDash_eq_none_iff (l : List Nat) : splitDash l = none ↔ 0x2D ∉ l := by
  induction l with
  | nil => simp [splitDash]
  | cons b rest ih =>
    simp only [splitDash]
    by_cases hb : b = 0x2D
    · subst hb
      simp
    · cases hsd : splitDash rest with
      | none =>
        simp only [hsd]
        simp only [List.mem_cons, hb]
        constructor
        · intro _ h
          rcases h with h | h
          · exact hb h.symm
          · exact (ih.mp hsd) h
        · intro _
          rfl
      | some pq =>
        obtain ⟨p, q⟩ := pq
        have hmem : 0x2D ∈ rest := by
          by_contra hn
          rw [ih.mpr hn] at hsd
          cases hsd
        simp only [hsd]
        simp [List.mem_cons, hb, hmem]

theorem utf8EncodeChar_mem_ascii (c d : Char) (hc : c.toNat < 0x80) :
    c.toNat ∈ utf8EncodeChar d ↔ d = c := by
  unfold utf8EncodeChar
  by_cases h1 : d.toNat < 0x80
  · simp only [h1, if_true, List.mem_singleton]
    constructor
    · intro h
      exact Char.ext (UInt32.ext h.symm)
    · intro h
      rw [h]
  · have hd0 : ¬ d = c := fun h => by rw [h] at h1; omega
    simp only [h1, if_false, hd0, iff_false]
    split
    · simp only [List.mem_cons, List.not_mem_nil, or_false]
      omega
    · split
      · simp only [List.mem_cons, List.not_mem_nil, or_false]
        omega
      · simp only [List.mem_cons, List.not_mem_nil, or_false]
        omega

theorem utf8Bytes_mem_ascii (c : Char) (hc : c.toNat < 0x80) (s : String) :
    c.toNat ∈ utf8Bytes s ↔ c ∈ s.data := by
  simp only [utf8Bytes, List.mem_flatMap, utf8EncodeChar_mem_ascii _ _ hc]
  constructor
  · rintro ⟨d, hd, rfl⟩
    exact hd
  · intro h
    exact ⟨c, h, rfl⟩

end FourByte

example : FourByte.parse_signature_size "a9059cbb-64" =
    .ok [0xa9, 0x05, 0x9c, 0xbb] 64 := by decide
example : FourByte.parse_signature_size "abc-12" = .crash := by decide
set_option maxRecDepth 100000 in
example : FourByte.function_signature_to_selector "transfer(address,uint256)" =
    [0xa9, 0x05, 0x9c, 0xbb] := by decide


namespace FourByte

/-! ## Claims about `parse_signature_size` -/

/-- Claim C1: the spec asserts that a hex part of odd length yields the
`InvalidHex` error (`"could not parse signature bytes"`) and never panics.
The source instead slices `&hex_part[i..i+2]` with `i + 2` past the end on the
last step whenever every complete leading byte-pair is valid hex, so
`parse_signature_size("abc-12")` panics (byte index 4 out of bounds on a
3-byte hex part) rather than returning the error. -/
theorem claim_C1_odd_hex_panics :
    parse_signature_size "abc-12" = .crash ∧
    parse_signature_size "abc-12" ≠ .error "could not parse signature bytes" := by
  constructor
  · decide
  · decide

/-- Claim C5: every input containing `(` takes the full-signature branch:
`parse_signature_size` succeeds with the first 4 bytes of the Keccak-256 hash
of the whole input's UTF-8 bytes and size 0. Determinism is definitional: the
embedding is a pure function of the input string. -/
theorem claim_C5_full_signature_form (s : String) (h : '(' ∈ s.data) :
    parse_signature_size s = .ok ((keccak256 (utf8Bytes s)).take 4) 0 := by
  have hm : (0x28 : Nat) ∈ utf8Bytes s := (utf8Bytes_mem_ascii '(' (by decide) s).mpr h
  simp [parse_signature_size, parseBytes, hm, function_signature_to_selector]

theorem claim_C5_full_signature_form_witness :
    '(' ∈ "transfer(address,uint256)".data ∧
    parse_signature_size "transfer(address,uint256)" =
      .ok ((keccak256 (utf8Bytes "transfer(address,uint256)")).take 4) 0 :=
  ⟨by decide, claim_C5_full_signature_form _ (by decide)⟩

end FourByte

namespace FourByte

/-- Helper for claim C6: prepending `0x` to a paren-free input leaves the
parse result unchanged, because `splitn(2,'-')` keeps the `0x` inside the hex
part and `trim_start_matches("0x")` then removes it. -/
theorem parse_prepend_0x (s : String) (h : '(' ∉ s.data) :
    parse_signature_size ("0x" ++ s) = parse_signature_size s := by
  have e0 : utf8EncodeChar '0' = [0x30] := by decide
  have ex : utf8EncodeChar 'x' = [0x78] := by decide
  have hdata : utf8Bytes ("0x" ++ s) = 0x30 :: 0x78 :: utf8Bytes s := by
    simp [utf8Bytes, String.data_append, e0, ex]
  have hm : (0x28 : Nat) ∉ utf8Bytes s :=
    fun hmem => h ((utf8Bytes_mem_ascii '(' (by decide) s).mp hmem)
  simp only [parse_signature_size, parseBytes, hdata]
  rw [if_neg (show ¬ (((0x30 : Nat) :: 0x78 :: utf8Bytes s).contains 0x28 = true) by
        simp [hm]),
    if_neg (show ¬ ((utf8Bytes s).contains 0x28 = true) by simpa using hm)]
  cases hsd : splitDash (utf8Bytes s) with
  | none => simp [splitDash, hsd]
  | some pq =>
    obtain ⟨p, q⟩ := pq
    simp [splitDash, hsd, trim0x]

end FourByte

namespace FourByte

/-- Claim C6: `parse_signature_size("a9059cbb-64")` yields selector bytes
`[0xa9, 0x05, 0x9c, 0xbb]` with size 64, `"0xa9059cbb-64"` yields the
identical result, and in general prepending `0x` to any paren-free input
leaves the parse result unchanged. -/
theorem claim_C6_strip0x_invariant :
    parse_signature_size "a9059cbb-64" = .ok [0xa9, 0x05, 0x9c, 0xbb] 64 ∧
    parse_signature_size "0xa9059cbb-64" = .ok [0xa9, 0x05, 0x9c, 0xbb] 64 ∧
    ∀ s : String, '(' ∉ s.data →
      parse_signature_size ("0x" ++ s) = parse_signature_size s :=
  ⟨by decide, by decide, parse_prepend_0x⟩

theorem claim_C6_strip0x_invariant_witness :
    '(' ∉ "a9059cbb-64".data ∧
    parse_signature_size ("0x" ++ "a9059cbb-64") = parse_signature_size "a9059cbb-64" :=
  ⟨by decide, claim_C6_strip0x_invariant.2.2 "a9059cbb-64" (by decide)⟩

/-- Claim C7: for paren-free inputs, `parse_signature_size` returns the
`MalformedPair` error (`"could not parse 4byte-size pair"`) iff the input has
no `-` at all (`splitn(2,'-')` yields a single part); `"nodash"` is such an
input. -/
theorem claim_C7_malformed_pair_iff_no_dash :
    (∀ s : String, '(' ∉ s.data →
      (parse_signature_size s = .error "could not parse 4byte-size pair" ↔
        '-' ∉ s.data)) ∧
    parse_signature_size "nodash" = .error "could not parse 4byte-size pair" := by
  refine ⟨?_, by decide⟩
  intro s h
  have hm : (0x28 : Nat) ∉ utf8Bytes s :=
    fun hmem => h ((utf8Bytes_mem_ascii '(' (by decide) s).mp hmem)
  have hdash : '-' ∈ s.data ↔ (0x2D : Nat) ∈ utf8Bytes s :=
    (utf8Bytes_mem_ascii '-' (by decide) s).symm
  simp only [parse_signature_size, parseBytes]
  rw [if_neg (show ¬ ((utf8Bytes s).contains 0x28 = true) by simpa using hm)]
  cases hsd : splitDash (utf8Bytes s) with
  | none =>
    have hnd : (0x2D : Nat) ∉ utf8Bytes s := (splitDash_eq_none_iff _).mp hsd
    simp only [iff_true_intro (fun hd => hnd (hdash.mp hd))]
    simp
    exact fun hd => hnd (hdash.mp hd)
  | some pq =>
    obtain ⟨p, q⟩ := pq
    have hd : (0x2D : Nat) ∈ utf8Bytes s := by
      by_contra hn
      rw [(splitDash_eq_none_iff _).mpr hn] at hsd
      cases hsd
    apply iff_of_false
    · cases hdh : decodeHex (trim0x p) with
      | crash => simp [hdh]
      | invalid =>
        simp only [hdh, ParseOutcome.error.injEq]
        decide
      | ok bs =>
        simp only [hdh]
        cases hpu : parseU64 q with
        | none =>
          simp only [hpu, ParseOutcome.error.injEq]
          decide
        | some n => simp [hpu]
    · simp [hdash, hd]

end FourByte

namespace FourByte

theorem claim_C7_malformed_pair_iff_no_dash_witness :
    '(' ∉ "nodash".data ∧
    (parse_signature_size "nodash" = .error "could not parse 4byte-size pair" ↔
      '-' ∉ "nodash".data) :=
  ⟨by decide, claim_C7_malformed_pair_iff_no_dash.1 "nodash" (by decide)⟩

/-! ## Claims about `process_storage_reads` -/

/-- Claim C2: the empty table satisfies the length invariant, and any `Ok` run
of `process_storage_reads` preserves it — each of the six field slots is
appended for a row iff the schema requests that column, so a requested
column's length equals `n_rows`, an unrequested column's length stays 0, and
`n_rows` grows by exactly one per emitted row. (The `store!` appends are
modelled from the spec, see `store`.) -/
theorem claim_C2_schema_gated_append :
    (∀ schema : Schema, lengthsOk schema FourByteCounts.empty) ∧
    ∀ (r : BlockTxsTraces) (schemas : Schemas) (schema : Schema)
      (columns c' : FourByteCounts),
      schemas.get .fourByteCounts = some schema →
      lengthsOk schema columns →
      process_storage_reads r columns schemas = .ok c' →
      lengthsOk schema c' ∧
      c'.n_rows = columns.n_rows + (rowsOfTxs (r.2.2.zip r.2.1) 0).length := by
  refine ⟨lengthsOk_empty, ?_⟩
  intro r schemas schema columns c' hget hlen hok
  rw [process_eq_runRows r columns schemas schema hget] at hok
  obtain ⟨hall, rfl⟩ := runRows_ok_elim _ _ _ _ _ hok
  exact ⟨foldl_applyRow_lengthsOk _ _ _ _ hlen, foldl_applyRow_n_rows _ _ _ _ hall⟩

theorem claim_C2_schema_gated_append_witness :
    noHashSchemas.get .fourByteCounts = some noHashSchema ∧
    lengthsOk noHashSchema FourByteCounts.empty ∧
    process_storage_reads exResponse FourByteCounts.empty noHashSchemas = .ok exNoHashOut ∧
    (lengthsOk noHashSchema exNoHashOut ∧
      exNoHashOut.n_rows = FourByteCounts.empty.n_rows +
        (rowsOfTxs (exResponse.2.2.zip exResponse.2.1) 0).length) :=
  ⟨rfl, by unfold lengthsOk; decide, by decide,
    claim_C2_schema_gated_append.2 exResponse noHashSchemas noHashSchema
      FourByteCounts.empty exNoHashOut rfl (by unfold lengthsOk; decide) (by decide)⟩

/-- Claim C3: rows are emitted in transaction-index order (the
`transaction_index` column is block-constant per transaction, in enumeration
order), within each transaction in the counter map's iteration order — which
for a `BTreeMap` keyed by `String` is ascending lexicographic key order, so
the emitted `(index, key)` sequence is strictly sorted; and the 2-transaction
example with 3 and 1 entries yields exactly 4 rows with `transaction_index`
column `[0, 0, 0, 1]`. -/
theorem claim_C3_row_order :
    (∀ (bn : Option Nat) (txs : List (Option (List Nat)))
       (traces : List (List (String × Nat))) (schemas : Schemas) (schema : Schema)
       (columns c' : FourByteCounts),
       schemas.get .fourByteCounts = some schema →
       schema.has_column "transaction_index" = true →
       process_storage_reads (bn, txs, traces) columns schemas = .ok c' →
       c'.transaction_index = columns.transaction_index ++
         (traces.zip txs).enum.flatMap
           (fun p => List.replicate p.2.1.length (some (p.1 % 2 ^ 32)))) ∧
    (∀ (zipped : List (List (String × Nat) × Option (List Nat))) (s : Nat),
       (∀ p ∈ zipped, List.Pairwise (fun a b : String × Nat => keyLt a.1 b.1) p.1) →
       List.Pairwise rowBefore (rowKeys zipped s)) ∧
    (process_storage_reads exResponse FourByteCounts.empty allSchemas = .ok exResponseOut ∧
     exResponseOut.n_rows = 4 ∧
     exResponseOut.transaction_index = [some 0, some 0, some 0, some 1]) := by
  refine ⟨?_, rowKeys_pairwise, by decide, by decide, by decide⟩
  intro bn txs traces schemas schema columns c' hget hreq hok
  rw [process_eq_runRows _ columns schemas schema hget] at hok
  obtain ⟨hall, rfl⟩ := runRows_ok_elim _ _ _ _ _ hok
  rw [foldl_applyRow_transaction_index _ _ _ _ hreq hall]
  rw [show ((bn, txs, traces) : BlockTxsTraces).2.2.zip (bn, txs, traces).2.1 =
    traces.zip txs from rfl]
  rw [rowsOfTxs_map_txIdx, List.enum_eq_enumFrom]

theorem claim_C3_row_order_witness :
    (allSchemas.get .fourByteCounts = some allSchema ∧
     allSchema.has_column "transaction_index" = true ∧
     process_storage_reads (some 9, exResponse.2.1, exResponse.2.2)
       FourByteCounts.empty allSchemas = .ok exResponseOut ∧
     exResponseOut.transaction_index = FourByteCounts.empty.transaction_index ++
       (exResponse.2.2.zip exResponse.2.1).enum.flatMap
         (fun p => List.replicate p.2.1.length (some (p.1 % 2 ^ 32)))) ∧
    ((∀ p ∈ exResponse.2.2.zip exResponse.2.1,
        List.Pairwise (fun a b : String × Nat => keyLt a.1 b.1) p.1) ∧
     List.Pairwise rowBefore (rowKeys (exResponse.2.2.zip exResponse.2.1) 0)) :=
  ⟨⟨rfl, rfl, by decide,
      claim_C3_row_order.1 (some 9) exResponse.2.1 exResponse.2.2 allSchemas
        allSchema FourByteCounts.empty exResponseOut rfl rfl (by decide)⟩,
   ⟨by decide, claim_C3_row_order.2.1 _ 0 (by decide)⟩⟩

/-- Claim C4: with a schema present, `process_storage_reads` returns `Ok` iff
every encoded key of the (zipped) response parses; and when the first failing
row's parse is an error, the whole call returns exactly that error, with only
the rows before it applied to the accumulator — fail-fast, no partial `Ok`. -/
theorem claim_C4_fail_fast (r : BlockTxsTraces) (columns : FourByteCounts)
    (schemas : Schemas) (schema : Schema)
    (hget : schemas.get .fourByteCounts = some schema) :
    ((∃ c', process_storage_reads r columns schemas = .ok c') ↔
      ∀ row ∈ rowsOfTxs (r.2.2.zip r.2.1) 0, rowOk row) ∧
    (∀ (pre post : List (Nat × Option (List Nat) × String × Nat)) row m,
      rowsOfTxs (r.2.2.zip r.2.1) 0 = pre ++ row :: post →
      (∀ q ∈ pre, rowOk q) →
      parse_signature_size row.2.2.1 = .error m →
      process_storage_reads r columns schemas =
        .err m (pre.foldl (applyRow schema r.1) columns)) := by
  rw [process_eq_runRows r columns schemas schema hget]
  constructor
  · constructor
    · rintro ⟨c', hc'⟩
      exact (runRows_ok_elim _ _ _ _ _ hc').1
    · intro hall
      exact ⟨_, runRows_ok_of_all _ _ _ _ hall⟩
  · intro pre post row m hsplit hpre hrow
    rw [hsplit]
    exact runRows_err_of _ _ _ _ _ _ _ hpre hrow

theorem claim_C4_fail_fast_witness :
    allSchemas.get .fourByteCounts = some allSchema ∧
    rowsOfTxs (exBadResponse.2.2.zip exBadResponse.2.1) 0 =
      [((0 : Nat), some [0x11], "aa-1", (5 : Nat))] ++
        ((0 : Nat), some [0x11], "zz", (6 : Nat)) :: [] ∧
    (∀ q ∈ [((0 : Nat), some [0x11], "aa-1", (5 : Nat))], rowOk q) ∧
    parse_signature_size "zz" = .error "could not parse 4byte-size pair" ∧
    process_storage_reads exBadResponse FourByteCounts.empty allSchemas =
      .err "could not parse 4byte-size pair"
        ([((0 : Nat), some [0x11], "aa-1", (5 : Nat))].foldl
          (applyRow allSchema exBadResponse.1) FourByteCounts.empty) := by
  have hpre : ∀ q ∈ [((0 : Nat), some [0x11], "aa-1", (5 : Nat))], rowOk q := by
    intro q hq
    simp only [List.mem_singleton] at hq
    subst hq
    exact ⟨[0xAA], 1, by decide⟩
  exact ⟨rfl, by decide, hpre, by decide,
    (claim_C4_fail_fast exBadResponse FourByteCounts.empty allSchemas allSchema
        rfl).2
      [((0 : Nat), some [0x11], "aa-1", (5 : Nat))] []
      ((0 : Nat), some [0x11], "zz", (6 : Nat)) "could not parse 4byte-size pair"
      (by decide) hpre (by decide)⟩

end FourByte

namespace FourByte

/-- Claim C9: `traces.iter().zip(txs)` silently truncates to the shorter of
the two sequences, so `process_storage_reads` behaves exactly as if both were
cut to `min` length — entries beyond it produce no rows and no error; in the
concrete mismatch example (2 counter maps, 1 hash) only the first map's entry
becomes a row. -/
theorem claim_C9_zip_truncates :
    (∀ (bn : Option Nat) (txs : List (Option (List Nat)))
       (traces : List (List (String × Nat))) (columns : FourByteCounts)
       (schemas : Schemas),
       process_storage_reads (bn, txs, traces) columns schemas =
         process_storage_reads
           (bn, txs.take (min traces.length txs.length),
            traces.take (min traces.length txs.length)) columns schemas) ∧
    process_storage_reads exMismatch FourByteCounts.empty allSchemas =
      .ok exOneRowOut := by
  refine ⟨?_, by decide⟩
  intro bn txs traces columns schemas
  unfold process_storage_reads
  cases schemas.get .fourByteCounts with
  | none => rfl
  | some schema =>
    show processTxs schema bn (traces.zip txs) 0 columns =
      processTxs schema bn
        ((traces.take (min traces.length txs.length)).zip
          (txs.take (min traces.length txs.length))) 0 columns
    rw [← zip_eq_zip_take]

/-- Claim C10: when `process_storage_reads` fails on a key, the accumulator is
not rolled back: the result is the fold of exactly the rows before the first
failing one (so `n_rows` counts the successfully processed entries, no field
of the failing entry was appended, and the schema-gated length invariant still
holds on the error path). -/
theorem claim_C10_error_keeps_partial_rows (r : BlockTxsTraces) (schemas : Schemas)
    (schema : Schema) (m : String) (c' : FourByteCounts)
    (hget : schemas.get .fourByteCounts = some schema)
    (herr : process_storage_reads r FourByteCounts.empty schemas = .err m c') :
    ∃ pre row post,
      rowsOfTxs (r.2.2.zip r.2.1) 0 = pre ++ row :: post ∧
      (∀ q ∈ pre, rowOk q) ∧
      parse_signature_size row.2.2.1 = .error m ∧
      c' = pre.foldl (applyRow schema r.1) FourByteCounts.empty ∧
      c'.n_rows = pre.length ∧
      lengthsOk schema c' := by
  rw [process_eq_runRows r FourByteCounts.empty schemas schema hget] at herr
  obtain ⟨pre, row, post, hsplit, hpre, hrow, hc⟩ := runRows_err_elim _ _ _ _ _ _ herr
  refine ⟨pre, row, post, hsplit, hpre, hrow, hc, ?_, ?_⟩
  · rw [hc, foldl_applyRow_n_rows _ _ _ _ hpre]
    simp [FourByteCounts.empty]
  · rw [hc]
    exact foldl_applyRow_lengthsOk _ _ _ _ (lengthsOk_empty _)

theorem claim_C10_error_keeps_partial_rows_witness :
    allSchemas.get .fourByteCounts = some allSchema ∧
    process_storage_reads exBadResponse FourByteCounts.empty allSchemas =
      .err "could not parse 4byte-size pair" exOneRowOut ∧
    ∃ pre row post,
      rowsOfTxs (exBadResponse.2.2.zip exBadResponse.2.1) 0 = pre ++ row :: post ∧
      (∀ q ∈ pre, rowOk q) ∧
      parse_signature_size row.2.2.1 = .error "could not parse 4byte-size pair" ∧
      exOneRowOut = pre.foldl (applyRow allSchema exBadResponse.1) FourByteCounts.empty ∧
      exOneRowOut.n_rows = pre.length ∧
      lengthsOk allSchema exOneRowOut :=
  ⟨rfl, by decide,
    claim_C10_error_keeps_partial_rows exBadResponse allSchemas allSchema
      "could not parse 4byte-size pair" exOneRowOut rfl (by decide)⟩

/-! ## Claim about the extraction drivers -/

/-- Claim C8: both drivers look the schema up first: with no schema for the
`FourByteCounts` identity they return the `"schema not provided"` error with
zero fetch calls issued, and a fetch (call count ≠ 0) can only have been
issued when the lookup succeeded. -/
theorem claim_C8_schema_before_fetch (request : Params) (schemas : Schemas)
    (fB : Nat → Bool → Except String BlockTxsTraces)
    (fT : List Nat → Bool → Except String BlockTxsTraces) :
    (schemas.get .fourByteCounts = none →
      extractByBlock request schemas fB = (.error "schema not provided", 0) ∧
      extractByTransaction request schemas fT = (.error "schema not provided", 0)) ∧
    ((extractByBlock request schemas fB).2 ≠ 0 →
      ∃ schema, schemas.get .fourByteCounts = some schema) ∧
    ((extractByTransaction request schemas fT).2 ≠ 0 →
      ∃ schema, schemas.get .fourByteCounts = some schema) := by
  cases hget : schemas.get .fourByteCounts with
  | none =>
    refine ⟨fun _ => ?_, fun hk => ?_, fun hk => ?_⟩
    · constructor <;> simp [extractByBlock, extractByTransaction, hget]
    · exact absurd (by simp [extractByBlock, hget]) hk
    · exact absurd (by simp [extractByTransaction, hget]) hk
  | some schema =>
    exact ⟨(fun h => nomatch h), ⟨fun _ => ⟨schema, rfl⟩, fun _ => ⟨schema, rfl⟩⟩⟩

theorem claim_C8_schema_before_fetch_witness :
    emptySchemas.get .fourByteCounts = none ∧
    extractByBlock exParams emptySchemas exFetch = (.error "schema not provided", 0) ∧
    extractByTransaction exParams emptySchemas exFetchTx =
      (.error "schema not provided", 0) :=
  ⟨rfl, (claim_C8_schema_before_fetch exParams emptySchemas exFetch exFetchTx).1 rfl⟩

end FourByte
